import Mathlib

/-!
Shallow embedding of the xdgicons icon-lookup library (Go) and proofs about
the claims on its specification.

The embedding follows the source files `utils.go`, `theme.go`, `lookup.go`
and the cache file (`baseDirIconCache`, `cacheBaseDirectory`, `getThemeInfo`,
`clearThemeInfoCache`, `shouldRefreshCache`, `fileExists`).

Modelling conventions:
* Go `int` is modelled as `Int` (sizes, scales and timestamps in the claims
  are small, so fixed-width overflow never matters for the statements below).
* Time is an abstract `Int` (nanoseconds, as Go `time.Duration`); a whole
  lookup runs at one instant `now` — the claims do not depend on the clock
  advancing inside a single call.
* The filesystem is a record `FS`: a `stat` map from path to optional mtime
  (`none` models a stat error), the set of regular files (for
  `filepath.WalkDir`), and the parsed content of `index.theme` files
  (`gopkg.in/ini.v1` is third-party, so descriptors are modelled at the
  section/key level that the repository reads through it).
* Go maps are association lists with overwrite-on-insert; a missing key
  yields the Go zero value exactly where the source relies on that.
* The unbounded theme-inheritance recursion of `findIconHelper` /
  `findBestIconHelper` is given a fuel parameter; exhausted fuel behaves as
  "not found", matching every terminating run of the Go code when the fuel
  is large enough.
-/

namespace Xdgicons

/-- Association-list lookup, modelling reading a Go `map[string]V`. -/
def assocFind {α : Type} : List (String × α) → String → Option α
  | [], _ => none
  | (k', v) :: rest, k => if k' = k then some v else assocFind rest k

/-- Modelling Go `delete(m, k)`. -/
def assocErase {α : Type} : List (String × α) → String → List (String × α)
  | [], _ => []
  | (k', v) :: rest, k =>
    if k' = k then assocErase rest k else (k', v) :: assocErase rest k

/-- Modelling Go `m[k] = v` (overwrite). -/
def assocInsert {α : Type} (m : List (String × α)) (k : String) (v : α) :
    List (String × α) :=
  assocErase m k ++ [(k, v)]

/-- Join of the non-empty path elements with `/`. -/
def joinNonEmpty : List String → String
  | [] => ""
  | [x] => x
  | x :: y :: rest => x ++ "/" ++ joinNonEmpty (y :: rest)

/-- Model of Go `path.Join`: the non-empty elements joined with `/`.
`path.Clean` is modelled as the identity, which agrees with Go on inputs
that are already clean (no duplicate slashes, no `.`/`..` segments) — the
only inputs this development uses. -/
def pathJoin (elems : List String) : String :=
  joinNonEmpty (elems.filter (fun e => e ≠ ""))

/-- Split a character list at every occurrence of `c` (auxiliary for
`goSplit`). -/
def splitOnCharAux (c : Char) : List Char → List Char → List (List Char)
  | [], acc => [acc.reverse]
  | x :: xs, acc =>
    if x = c then acc.reverse :: splitOnCharAux c xs []
    else splitOnCharAux c xs (x :: acc)

/-- Model of Go `strings.Split(s, sep)` for a one-character separator (the
only separators the repository uses are ":" and ","): in particular the
split of the empty string is `[""]`, as in Go. -/
def goSplit (c : Char) (s : String) : List String :=
  (splitOnCharAux c s.data []).map (fun l => String.mk l)

/-- Drop leading spaces of a character list. -/
def dropLeadingSpaces : List Char → List Char
  | [] => []
  | c :: cs => if c = ' ' then dropLeadingSpaces cs else c :: cs

/-- Model of Go `strings.TrimSpace` restricted to the ASCII space character,
the only whitespace appearing in the inputs of this development. -/
def goTrimSpace (s : String) : String :=
  String.mk ((dropLeadingSpaces ((dropLeadingSpaces s.data).reverse)).reverse)

/-- Decimal digit value. -/
def digitVal (c : Char) : Option Nat :=
  if '0' ≤ c ∧ c ≤ '9' then some (c.toNat - '0'.toNat) else none

/-- Accumulating decimal parser. -/
def parseNatAux : List Char → Nat → Option Nat
  | [], acc => some acc
  | c :: cs, acc =>
    match digitVal c with
    | none => none
    | some d => parseNatAux cs (acc * 10 + d)

/-- Model of the integer parsing done through `ini.Key.Int` /
`strconv.ParseInt` for plain decimal values (optionally signed); the hex and
octal prefixes accepted by base-0 parsing are not modelled, no input of this
development uses them. -/
def goParseInt (s : String) : Option Int :=
  match s.data with
  | [] => none
  | '-' :: rest =>
    if rest = [] then none else (parseNatAux rest 0).map (fun n => -(n : Int))
  | '+' :: rest =>
    if rest = [] then none else (parseNatAux rest 0).map (fun n => (n : Int))
  | l => (parseNatAux l 0).map (fun n => (n : Int))

/-- Boolean list-prefix test. -/
def charsPrefix : List Char → List Char → Bool
  | [], _ => true
  | _ :: _, [] => false
  | a :: as, b :: bs => a = b && charsPrefix as bs

/-- The process environment read by `GetBaseDirs` (utils.go). -/
structure Env where
  home : String
  xdgDataDirs : String
deriving DecidableEq

/-- Embedding of `GetBaseDirs` (utils.go lines 17-32): `$HOME/.icons` when
`HOME` is non-empty, then `path.Join(entry, "icons")` for every entry of
`strings.Split($XDG_DATA_DIRS, ":")`, then `/usr/share/pixmaps`. -/
def GetBaseDirs (env : Env) : List String :=
  let pixmapDir := "/usr/share/pixmaps"
  let dataDirs := goSplit ':' env.xdgDataDirs
  let base0 : List String :=
    if env.home ≠ "" then [pathJoin [env.home, ".icons"]] else []
  let base1 := base0 ++ dataDirs.map (fun dataDir => pathJoin [dataDir, "icons"])
  base1 ++ [pixmapDir]

/-- Embedding of `abs` (utils.go lines 9-15). -/
def goAbs (n : Int) : Int :=
  if n < 0 then -n else n

/-- Embedding of `SubDirIconInfo`: the per-subdirectory sizing rule read by
`readThemeIndex` (theme.go). The Go field `Type` is written `type` here
because `Type` is reserved in Lean. -/
structure SubDirIconInfo where
  Size : Int
  Scale : Int
  type : String
  MaxSize : Int
  MinSize : Int
  Threshold : Int
deriving DecidableEq

/-- The Go zero value of `SubDirIconInfo`, produced by reading a missing key
of `themeInfo.directoryMap`. -/
def SubDirIconInfo.zero : SubDirIconInfo :=
  { Size := 0, Scale := 0, type := "", MaxSize := 0, MinSize := 0, Threshold := 0 }

/-- Embedding of `ThemeInfo` (fields as used by theme.go and lookup.go). -/
structure ThemeInfo where
  Name : String
  Directories : List String
  ScaledDirectories : List String
  Inherits : List String
  directoryMap : List (String × SubDirIconInfo)
deriving DecidableEq

/-- Go `themeInfo.directoryMap[subdir]`: zero value when the key is absent. -/
def ThemeInfo.getDir (ti : ThemeInfo) (subdir : String) : SubDirIconInfo :=
  (assocFind ti.directoryMap subdir).getD SubDirIconInfo.zero

/-- Embedding of the `Icon` result value (lookup.go). -/
structure Icon where
  Name : String
  Path : String
  Size : Int
  MinSize : Int
  MaxSize : Int
  Scale : Int
deriving DecidableEq

/-- One key of an ini section: name and raw string value. -/
structure IniKey where
  name : String
  value : String
deriving DecidableEq

/-- One section of an ini file. -/
structure IniSection where
  name : String
  keys : List IniKey
deriving DecidableEq

/-- A parsed `index.theme` descriptor at the level `gopkg.in/ini.v1` exposes
it to theme.go: named sections of named string-valued keys. -/
structure IniFile where
  sections : List IniSection
deriving DecidableEq

/-- Model of `ini.File.GetSection`. -/
def IniFile.getSection (f : IniFile) (name : String) : Option IniSection :=
  f.sections.find? (fun s => s.name == name)

/-- Model of `ini.Section.GetKey` followed by `.String()`. -/
def IniSection.getKey (s : IniSection) (keyName : String) : Option String :=
  (s.keys.find? (fun k => k.name == keyName)).map (fun k => k.value)

/-- Model of `ini.Key.Strings(",")`: empty value gives the empty list,
otherwise split on `,` and trim spaces (backslash escaping of the delimiter
is not modelled; no input of this development contains a backslash). -/
def iniStrings (v : String) : List String :=
  if v = "" then [] else (goSplit ',' v).map goTrimSpace

/-- Model of `ini.Key.MustInt(d)`: the parsed integer, `d` on parse failure. -/
def iniMustInt (v : String) (d : Int) : Int :=
  (goParseInt v).getD d

/-- Model of `ini.Key.MustString(d)`: the value, `d` when it is empty. -/
def iniMustString (v : String) (d : String) : String :=
  if v = "" then d else v

/-- The raw `Inherits` list of the `Icon Theme` section, before the
`hicolor` sentinel is appended (theme.go lines 89-92). -/
def sectionInherits (sec : IniSection) : List String :=
  match sec.getKey "Inherits" with
  | some v => iniStrings v
  | none => []

/-- The raw `ScaledDirectories` list of the `Icon Theme` section
(theme.go lines 98-101). -/
def sectionScaledDirs (sec : IniSection) : List String :=
  match sec.getKey "ScaledDirectories" with
  | some v => iniStrings v
  | none => []

/-- One iteration of the per-subdirectory loop of `readThemeIndex`
(theme.go lines 103-159): the section for `dir` and its `Size` key are
required; `Scale`, `Type`, `MaxSize`, `MinSize`, `Threshold` fall back to
their defaults (1, "Threshold", Size, Size, 2). -/
def readSubDir (index : IniFile) (dir : String) : Option SubDirIconInfo :=
  match index.getSection dir with
  | none => none
  | some dirSection =>
    match dirSection.getKey "Size" with
    | none => none
    | some sizeVal =>
      match goParseInt sizeVal with
      | none => none
      | some size =>
        let scale := match dirSection.getKey "Scale" with
          | none => 1
          | some v => iniMustInt v 1
        let ty := match dirSection.getKey "Type" with
          | none => "Threshold"
          | some v => iniMustString v "Threshold"
        let maxSize := match dirSection.getKey "MaxSize" with
          | none => size
          | some v => iniMustInt v size
        let minSize := match dirSection.getKey "MinSize" with
          | none => size
          | some v => iniMustInt v size
        let threshold := match dirSection.getKey "Threshold" with
          | none => 2
          | some v => iniMustInt v 2
        some { Size := size, Scale := scale, type := ty,
               MaxSize := maxSize, MinSize := minSize, Threshold := threshold }

/-- The whole subdirectory loop of `readThemeIndex`: builds `directoryMap`,
failing as soon as one listed directory has no usable section. -/
def readSubDirs (index : IniFile) :
    List String → List (String × SubDirIconInfo) →
    Option (List (String × SubDirIconInfo))
  | [], acc => some acc
  | dir :: rest, acc =>
    match readSubDir index dir with
    | none => none
    | some info => readSubDirs index rest (assocInsert acc dir info)

/-- The filesystem as seen by the library. `stat p = none` models a failing
`os.Stat`; on success the value is the path's mtime. `files` is the set of
regular files (full paths); `index p` is the parsed content of `p` when it
is a loadable ini file (`none` models an `ini.Load` failure). -/
structure FS where
  stat : String → Option Int
  files : List String
  index : String → Option IniFile

/-- Model of `filepath.WalkDir(dirPath, ...)` collecting every non-directory
entry (part_000 lines 34-42; the callback swallows walk errors): the regular
files strictly beneath `dirPath`. -/
def FS.walk (fs : FS) (dirPath : String) : List String :=
  fs.files.filter (fun p => charsPrefix (dirPath ++ "/").data p.data)

/-- Embedding of `readThemeIndex` (theme.go lines 62-162). Returns `none`
exactly where the Go function returns an error. -/
def readThemeIndex (fs : FS) (theme indexPath : String) : Option ThemeInfo :=
  match fs.index indexPath with
  | none => none
  | some index =>
    match index.getSection "Icon Theme" with
    | none => none
    | some iconThemeSection =>
      match iconThemeSection.getKey "Name" with
      | none => none
      | some nameVal =>
        match iconThemeSection.getKey "Directories" with
        | none => none
        | some dirsVal =>
          let dirs := iniStrings dirsVal
          let inh0 := sectionInherits iconThemeSection
          let inh :=
            if theme ≠ "hicolor" ∧ ¬ (inh0.contains "hicolor") then
              inh0 ++ ["hicolor"]
            else inh0
          let scaled := sectionScaledDirs iconThemeSection
          match readSubDirs index (dirs ++ scaled) [] with
          | none => none
          | some dmap =>
            some { Name := nameVal, Directories := dirs,
                   ScaledDirectories := scaled, Inherits := inh,
                   directoryMap := dmap }

/-- Embedding of `baseDirIconCache` (part_000 lines 11-15). The Go
`map[string]bool` of files is the list of paths mapped to `true`. -/
structure BaseDirIconCache where
  files : List String
  mtime : Int
  lastStat : Int
deriving DecidableEq

/-- The immutable configuration part of `IconLookup` (lookup.go 12-22). -/
structure IconLookup where
  theme : String
  fallbackTheme : String
  extensions : List String
  cacheValidCheckInterval : Int
  defaultSize : Int
  defaultScale : Int
deriving DecidableEq

/-- The mutable state of `IconLookup`: the two cache tables. -/
structure ILState where
  themeInfoCache : List (String × ThemeInfo)
  dirCache : List (String × BaseDirIconCache)
deriving DecidableEq

/-- Embedding of `LookupConfig` (lookup.go 28-54). -/
structure LookupConfig where
  Theme : String
  FallbackTheme : String
  Extensions : List String
  DefaultSize : Int
  DefaultScale : Int
deriving DecidableEq

/-- Go `5 * time.Second` in nanoseconds. -/
def fiveSeconds : Int := 5000000000

/-- Embedding of `cacheBaseDirectory` (part_000 lines 26-56): stat the base
directory (error propagated), walk it for regular files, clear the theme
cache and store the new snapshot. Returns the new state and whether the Go
function returned `nil`. -/
def cacheBaseDirectory (fs : FS) (now : Int) (st : ILState) (dirPath : String) :
    ILState × Bool :=
  match fs.stat dirPath with
  | none => (st, false)
  | some mtime =>
    let files := fs.walk dirPath
    let st1 : ILState := { st with themeInfoCache := [] }
    let entry : BaseDirIconCache := { files := files, mtime := mtime, lastStat := now }
    ({ st1 with dirCache := assocInsert st1.dirCache dirPath entry }, true)

/-- Embedding of `createInitialCache` (part_000 lines 17-24). -/
def createInitialCache (fs : FS) (env : Env) (now : Int) (st : ILState) : ILState :=
  (GetBaseDirs env).foldl (fun s d => (cacheBaseDirectory fs now s d).fst) st

/-- Embedding of `NewIconLookupWithConfig` (lookup.go 56-91). `DefaultTheme()`
shells out to dconf/gsettings, so it is taken as the parameter
`defaultTheme`. -/
def NewIconLookupWithConfig (defaultTheme : String) (cfg : LookupConfig)
    (fs : FS) (env : Env) (now : Int) : IconLookup × ILState :=
  let il : IconLookup :=
    { theme := if cfg.Theme = "" then defaultTheme else cfg.Theme
      fallbackTheme := cfg.FallbackTheme
      extensions := if cfg.Extensions = [] then ["png", "svg", "xpm"] else cfg.Extensions
      cacheValidCheckInterval := fiveSeconds
      defaultSize := if cfg.DefaultSize = 0 then 48 else cfg.DefaultSize
      defaultScale := if cfg.DefaultScale = 0 then 1 else cfg.DefaultScale }
  (il, createInitialCache fs env now { themeInfoCache := [], dirCache := [] })

/-- Embedding of `shouldRefreshCache` (part_000 lines 89-107). On a failing
stat the snapshot is deleted from the table and `false` is returned. -/
def shouldRefreshCache (il : IconLookup) (fs : FS) (now : Int) (st : ILState)
    (baseDir : String) (cacheEntry : Option BaseDirIconCache) : ILState × Bool :=
  match cacheEntry with
  | none => (st, true)
  | some entry =>
    if now - entry.lastStat < il.cacheValidCheckInterval then (st, false)
    else
      match fs.stat baseDir with
      | none => ({ st with dirCache := assocErase st.dirCache baseDir }, false)
      | some mtime => (st, decide (¬ mtime = entry.mtime))

/-- Membership answer of `fileExists` (part_000/lookup.go): a `nil` entry
answers `false`, otherwise membership in the snapshot's file set. -/
def cacheAnswer (cacheEntry : Option BaseDirIconCache) (iconPath : String) : Bool :=
  match cacheEntry with
  | none => false
  | some entry => entry.files.contains iconPath

/-- Embedding of `fileExists` (lookup.go lines 224-252). `cacheEntry` is a Go
pointer: the write `cacheEntry.lastStat = now` reaches the table only when
the table still holds that entry (it does not when `shouldRefreshCache` has
just deleted it), but the local view used for the final membership answer
sees the write either way. -/
def fileExists (il : IconLookup) (fs : FS) (now : Int) (st : ILState)
    (baseDir iconPath : String) : Bool × ILState :=
  let cacheEntry := assocFind st.dirCache baseDir
  let stale :=
    match cacheEntry with
    | none => true
    | some e => now - e.lastStat ≥ il.cacheValidCheckInterval
  if stale then
    let (st1, refresh) := shouldRefreshCache il fs now st baseDir cacheEntry
    if refresh then
      let (st2, _) := cacheBaseDirectory fs now st1 baseDir
      let cacheEntry2 := assocFind st2.dirCache baseDir
      (cacheAnswer cacheEntry2 iconPath, st2)
    else
      match cacheEntry with
      | some e =>
        let e' : BaseDirIconCache := { e with lastStat := now }
        let st2 :=
          if (assocFind st1.dirCache baseDir).isSome then
            { st1 with dirCache := assocInsert st1.dirCache baseDir e' }
          else st1
        (cacheAnswer (some e') iconPath, st2)
      | none => (cacheAnswer none iconPath, st1)
  else
    (cacheAnswer cacheEntry iconPath, st)

/-- The base-directory loop of `getThemeInfo` (part_000 lines 67-80). -/
def getThemeInfoLoop (fs : FS) (theme : String) : List String → Option ThemeInfo
  | [] => none
  | directory :: rest =>
    let indexPath := pathJoin [directory, theme, "index.theme"]
    match fs.stat indexPath with
    | none => getThemeInfoLoop fs theme rest
    | some _ =>
      match readThemeIndex fs theme indexPath with
      | none => getThemeInfoLoop fs theme rest
      | some ti => some ti

/-- Embedding of `getThemeInfo` (part_000 lines 58-83): cached record when
present, otherwise parse the first usable descriptor over the base
directories and cache it. -/
def getThemeInfo (il : IconLookup) (fs : FS) (env : Env) (st : ILState)
    (theme : String) : Option ThemeInfo × ILState :=
  match assocFind st.themeInfoCache theme with
  | some ti => (some ti, st)
  | none =>
    match getThemeInfoLoop fs theme (GetBaseDirs env) with
    | none => (none, st)
    | some ti =>
      (some ti, { st with themeInfoCache := assocInsert st.themeInfoCache theme ti })

/-- Embedding of `directoryMatchesSize` (lookup.go lines 254-271). -/
def directoryMatchesSize (ti : ThemeInfo) (subdir : String)
    (iconSize iconScale : Int) : Bool :=
  let subdirInfo := ti.getDir subdir
  if subdirInfo.Scale ≠ iconScale then false
  else if subdirInfo.type = "Fixed" then decide (subdirInfo.Size = iconSize)
  else if subdirInfo.type = "Scalable" then
    decide (subdirInfo.MinSize ≤ iconSize ∧ iconSize ≤ subdirInfo.MaxSize)
  else if subdirInfo.type = "Threshold" then
    decide (subdirInfo.Size - subdirInfo.Threshold ≤ iconSize ∧
            iconSize ≤ subdirInfo.Size + subdirInfo.Threshold)
  else false

/-- Embedding of `directorySizeDistance` (lookup.go lines 273-298). Note
that the `Threshold` case tests against the threshold-widened range but
computes the out-of-range distances from `MinSize`/`MaxSize`, exactly as the
source does. -/
def directorySizeDistance (ti : ThemeInfo) (subdir : String)
    (iconSize iconScale : Int) : Int :=
  let s := ti.getDir subdir
  if s.type = "Fixed" then goAbs (s.Size * s.Scale - iconSize * iconScale)
  else if s.type = "Scalable" then
    if iconSize * iconScale < s.MinSize * s.Scale then
      s.MinSize * s.Scale - iconSize * iconScale
    else if iconSize * iconScale > s.MaxSize * s.Scale then
      iconSize * iconScale - s.MaxSize * s.Scale
    else 0
  else if s.type = "Threshold" then
    if iconSize * iconScale < (s.Size - s.Threshold) * s.Scale then
      s.MinSize * s.Scale - iconSize * iconScale
    else if iconSize * iconScale > (s.Size + s.Threshold) * s.Scale then
      iconSize * iconScale - s.MaxSize * s.Scale
    else 0
  else 0

/-- Go `math.MaxInt`, the initial value of `minimalSize` in `lookupIcon`. -/
def goMaxInt : Int := 9223372036854775807

/-- Innermost (extension) loop of `lookupIcon`'s exact pass
(lookup.go lines 154-170): the size test guards the existence probe. -/
def pass1Exts (il : IconLookup) (fs : FS) (now : Int) (ti : ThemeInfo)
    (theme iconName : String) (size scale : Int) (subdir directory : String) :
    List String → ILState → Option String × ILState
  | [], st => (none, st)
  | extension :: rest, st =>
    if directoryMatchesSize ti subdir size scale then
      match fileExists il fs now st directory
          (pathJoin [directory, theme, subdir, iconName ++ "." ++ extension]) with
      | (true, st1) =>
        (some (pathJoin [directory, theme, subdir, iconName ++ "." ++ extension]), st1)
      | (false, st1) =>
        pass1Exts il fs now ti theme iconName size scale subdir directory rest st1
    else pass1Exts il fs now ti theme iconName size scale subdir directory rest st

/-- Base-directory loop of `lookupIcon`'s exact pass (lookup.go line 153). -/
def pass1Dirs (il : IconLookup) (fs : FS) (now : Int) (ti : ThemeInfo)
    (theme iconName : String) (size scale : Int) (subdir : String) :
    List String → ILState → Option String × ILState
  | [], st => (none, st)
  | directory :: rest, st =>
    match pass1Exts il fs now ti theme iconName size scale subdir directory
        il.extensions st with
    | (some p, st1) => (some p, st1)
    | (none, st1) => pass1Dirs il fs now ti theme iconName size scale subdir rest st1

/-- Subdirectory loop of `lookupIcon`'s exact pass (lookup.go line 152);
yields the found path together with its subdirectory. -/
def pass1Subdirs (il : IconLookup) (fs : FS) (env : Env) (now : Int)
    (ti : ThemeInfo) (theme iconName : String) (size scale : Int) :
    List String → ILState → Option (String × String) × ILState
  | [], st => (none, st)
  | subdir :: rest, st =>
    match pass1Dirs il fs now ti theme iconName size scale subdir
        (GetBaseDirs env) st with
    | (some p, st1) => (some (p, subdir), st1)
    | (none, st1) => pass1Subdirs il fs env now ti theme iconName size scale rest st1

/-- Accumulator of `lookupIcon`'s closest-size pass:
`(minimalSize, closestFilename, closestSubdir)`. -/
abbrev Pass2Acc := Int × String × String

/-- Innermost (extension) loop of the closest-size pass
(lookup.go lines 180-188). -/
def pass2Exts (il : IconLookup) (fs : FS) (now : Int) (ti : ThemeInfo)
    (theme iconName : String) (size scale : Int) (subdir directory : String) :
    List String → Pass2Acc → ILState → Pass2Acc × ILState
  | [], acc, st => (acc, st)
  | extension :: rest, acc, st =>
    match fileExists il fs now st directory
        (pathJoin [directory, theme, subdir, iconName ++ "." ++ extension]) with
    | (ok, st1) =>
      pass2Exts il fs now ti theme iconName size scale subdir directory rest
        (if ok ∧ directorySizeDistance ti subdir size scale < acc.1 then
          (directorySizeDistance ti subdir size scale,
           pathJoin [directory, theme, subdir, iconName ++ "." ++ extension],
           subdir)
        else acc) st1

/-- Base-directory loop of the closest-size pass (lookup.go line 179). -/
def pass2Dirs (il : IconLookup) (fs : FS) (now : Int) (ti : ThemeInfo)
    (theme iconName : String) (size scale : Int) (subdir : String) :
    List String → Pass2Acc → ILState → Pass2Acc × ILState
  | [], acc, st => (acc, st)
  | directory :: rest, acc, st =>
    match pass2Exts il fs now ti theme iconName size scale subdir
        directory il.extensions acc st with
    | (acc1, st1) => pass2Dirs il fs now ti theme iconName size scale subdir rest acc1 st1

/-- Subdirectory loop of the closest-size pass (lookup.go line 178). -/
def pass2Subdirs (il : IconLookup) (fs : FS) (env : Env) (now : Int)
    (ti : ThemeInfo) (theme iconName : String) (size scale : Int) :
    List String → Pass2Acc → ILState → Pass2Acc × ILState
  | [], acc, st => (acc, st)
  | subdir :: rest, acc, st =>
    match pass2Dirs il fs now ti theme iconName size scale subdir
        (GetBaseDirs env) acc st with
    | (acc1, st1) => pass2Subdirs il fs env now ti theme iconName size scale rest acc1 st1

/-- The `Icon` built from a theme hit (lookup.go lines 160-167 / 193-200). -/
def mkThemedIcon (ti : ThemeInfo) (iconName iconPath subdir : String) : Icon :=
  let iconInfo := ti.getDir subdir
  { Name := iconName, Path := iconPath, Size := iconInfo.Size,
    MinSize := iconInfo.MinSize, MaxSize := iconInfo.MaxSize,
    Scale := iconInfo.Scale }

/-- Embedding of `lookupIcon` (lookup.go lines 146-204): exact pass over
subdirectories × base directories × extensions, then the closest-size pass,
else not found. -/
def lookupIcon (il : IconLookup) (fs : FS) (env : Env) (now : Int)
    (iconName : String) (size scale : Int) (theme : String) (st : ILState) :
    Option Icon × ILState :=
  match getThemeInfo il fs env st theme with
  | (none, st1) => (none, st1)
  | (some ti, st1) =>
    match pass1Subdirs il fs env now ti theme iconName size scale
        (ti.Directories ++ ti.ScaledDirectories) st1 with
    | (some (iconPath, subdir), st2) =>
      (some (mkThemedIcon ti iconName iconPath subdir), st2)
    | (none, st2) =>
      match pass2Subdirs il fs env now ti theme iconName size scale
          (ti.Directories ++ ti.ScaledDirectories) (goMaxInt, "", "") st2 with
      | (acc, st3) =>
        if acc.2.1 ≠ "" then
          (some (mkThemedIcon ti iconName acc.2.1 acc.2.2), st3)
        else (none, st3)

/-- Extension loop of `lookupFallbackIcon` (lookup.go lines 208-218). -/
def fallbackExts (il : IconLookup) (fs : FS) (now : Int)
    (iconName directory : String) :
    List String → ILState → Option Icon × ILState
  | [], st => (none, st)
  | extension :: rest, st =>
    match fileExists il fs now st directory
        (pathJoin [directory, iconName ++ "." ++ extension]) with
    | (true, st1) =>
      (some { Name := iconName, Path := pathJoin [directory, iconName ++ "." ++ extension],
              Size := 0, MinSize := 0, MaxSize := 0, Scale := 0 }, st1)
    | (false, st1) => fallbackExts il fs now iconName directory rest st1

/-- Base-directory loop of `lookupFallbackIcon` (lookup.go line 207). -/
def fallbackDirs (il : IconLookup) (fs : FS) (now : Int) (iconName : String) :
    List String → ILState → Option Icon × ILState
  | [], st => (none, st)
  | directory :: rest, st =>
    match fallbackExts il fs now iconName directory il.extensions st with
    | (some icon, st1) => (some icon, st1)
    | (none, st1) => fallbackDirs il fs now iconName rest st1

/-- Embedding of `lookupFallbackIcon` (lookup.go lines 206-222): search
`<base>/<name>.<ext>` over the base directories; the resulting `Icon`
carries only `Name` and `Path` (Go zero values elsewhere). -/
def lookupFallbackIcon (il : IconLookup) (fs : FS) (env : Env) (now : Int)
    (iconName : String) (st : ILState) : Option Icon × ILState :=
  fallbackDirs il fs now iconName (GetBaseDirs env) st

/-- Embedding of `findIconHelper` (lookup.go lines 124-144), phrased over the
work list of themes still to try at the current level: for each theme, load
its record, try `lookupIcon`, then recurse into its `Inherits` list before
moving to the next theme of the level. The fuel bounds the recursion depth
of the Go function (which does not terminate on cyclic descriptors); every
terminating Go run is reproduced by any sufficiently large fuel. -/
def findIconList (il : IconLookup) (fs : FS) (env : Env) (now : Int)
    (iconName : String) (size scale : Int) :
    Nat → List String → ILState → Option Icon × ILState
  | 0, _, st => (none, st)
  | _ + 1, [], st => (none, st)
  | fuel + 1, theme :: rest, st =>
    match getThemeInfo il fs env st theme with
    | (none, st1) => findIconList il fs env now iconName size scale fuel rest st1
    | (some ti, st1) =>
      match lookupIcon il fs env now iconName size scale theme st1 with
      | (some icon, st2) => (some icon, st2)
      | (none, st2) =>
        match findIconList il fs env now iconName size scale fuel ti.Inherits st2 with
        | (some icon, st3) => (some icon, st3)
        | (none, st3) => findIconList il fs env now iconName size scale fuel rest st3

/-- Embedding of `FindIcon` (lookup.go lines 100-122): primary theme chain,
then the themeless fallback tier, then the configured fallback theme chain. -/
def FindIcon (il : IconLookup) (fs : FS) (env : Env) (now : Int) (fuel : Nat)
    (iconName : String) (size scale : Int) (st : ILState) :
    Option Icon × ILState :=
  match findIconList il fs env now iconName size scale fuel [il.theme] st with
  | (some icon, st1) => (some icon, st1)
  | (none, st1) =>
    match lookupFallbackIcon il fs env now iconName st1 with
    | (some icon, st2) => (some icon, st2)
    | (none, st2) =>
      if il.fallbackTheme ≠ "" then
        match findIconList il fs env now iconName size scale fuel
            [il.fallbackTheme] st2 with
        | (some icon, st3) => (some icon, st3)
        | (none, st3) => (none, st3)
      else (none, st2)

/-- Embedding of `Lookup` (lookup.go lines 94-97): the source calls
`FindIcon(iconName, 48, 1)` with literal 48 and 1. -/
def Lookup (il : IconLookup) (fs : FS) (env : Env) (now : Int) (fuel : Nat)
    (iconName : String) (st : ILState) : Option Icon × ILState :=
  FindIcon il fs env now fuel iconName 48 1 st

/-- Candidate loop of `findBestIconHelper` (lookup.go lines 338-343). -/
def lookupIconCands (il : IconLookup) (fs : FS) (env : Env) (now : Int)
    (size scale : Int) (theme : String) :
    List String → ILState → Option Icon × ILState
  | [], st => (none, st)
  | iconName :: rest, st =>
    match lookupIcon il fs env now iconName size scale theme st with
    | (some icon, st1) => (some icon, st1)
    | (none, st1) => lookupIconCands il fs env now size scale theme rest st1

/-- Embedding of `findBestIconHelper` (lookup.go lines 331-353), phrased like
`findIconList` over the work list of themes at the current level: all
candidates are tried in the current theme before any parent is consulted. -/
def findBestIconList (il : IconLookup) (fs : FS) (env : Env) (now : Int)
    (iconList : List String) (size scale : Int) :
    Nat → List String → ILState → Option Icon × ILState
  | 0, _, st => (none, st)
  | _ + 1, [], st => (none, st)
  | fuel + 1, theme :: rest, st =>
    match getThemeInfo il fs env st theme with
    | (none, st1) => findBestIconList il fs env now iconList size scale fuel rest st1
    | (some ti, st1) =>
      match lookupIconCands il fs env now size scale theme iconList st1 with
      | (some icon, st2) => (some icon, st2)
      | (none, st2) =>
        match findBestIconList il fs env now iconList size scale fuel
            ti.Inherits st2 with
        | (some icon, st3) => (some icon, st3)
        | (none, st3) =>
          findBestIconList il fs env now iconList size scale fuel rest st3

/-- Per-candidate themeless fallback loop of `FindBestIcon`
(lookup.go lines 311-316). -/
def fallbackCands (il : IconLookup) (fs : FS) (env : Env) (now : Int) :
    List String → ILState → Option Icon × ILState
  | [], st => (none, st)
  | iconName :: rest, st =>
    match lookupFallbackIcon il fs env now iconName st with
    | (some icon, st1) => (some icon, st1)
    | (none, st1) => fallbackCands il fs env now rest st1

/-- Embedding of `FindBestIcon` (lookup.go lines 302-329): primary theme
chain over all candidates, then the themeless fallback tier candidate by
candidate, then the configured fallback theme chain. -/
def FindBestIcon (il : IconLookup) (fs : FS) (env : Env) (now : Int)
    (fuel : Nat) (iconList : List String) (size scale : Int) (st : ILState) :
    Option Icon × ILState :=
  match findBestIconList il fs env now iconList size scale fuel [il.theme] st with
  | (some icon, st1) => (some icon, st1)
  | (none, st1) =>
    match fallbackCands il fs env now iconList st1 with
    | (some icon, st2) => (some icon, st2)
    | (none, st2) =>
      if il.fallbackTheme ≠ "" then
        match findBestIconList il fs env now iconList size scale fuel
            [il.fallbackTheme] st2 with
        | (some icon, st3) => (some icon, st3)
        | (none, st3) => (none, st3)
      else (none, st2)

/-!  Concrete scenarios used by the counterexamples and witnesses. -/

/-- Environment with no home directory and a single data directory. -/
def sampleEnv : Env := ⟨"", "/data"⟩

/-- A `hicolor` descriptor with a 48×48 fixed directory and a 32×32 scale-2
fixed directory. -/
def sampleIni : IniFile :=
  ⟨[⟨"Icon Theme", [⟨"Name", "Hicolor"⟩, ⟨"Directories", "48x48,32x32@2"⟩]⟩,
    ⟨"48x48", [⟨"Size", "48"⟩, ⟨"Type", "Fixed"⟩]⟩,
    ⟨"32x32@2", [⟨"Size", "32"⟩, ⟨"Scale", "2"⟩, ⟨"Type", "Fixed"⟩]⟩]⟩

/-- Filesystem with the theme `hicolor` under `/data/icons` holding `app` at
both sizes and `b` at 48×48, and with `a` only in the legacy pixmap
directory. -/
def sampleFS : FS :=
  { stat := fun p =>
      if p = "/data/icons" then some 1
      else if p = "/usr/share/pixmaps" then some 1
      else if p = "/data/icons/hicolor/index.theme" then some 1
      else none
    files := ["/data/icons/hicolor/48x48/app.png",
              "/data/icons/hicolor/32x32@2/app.png",
              "/data/icons/hicolor/48x48/b.png",
              "/usr/share/pixmaps/a.png"]
    index := fun p =>
      if p = "/data/icons/hicolor/index.theme" then some sampleIni else none }

/-- Configuration naming `hicolor` and setting the lookup defaults to
size 32 and scale 2. -/
def sampleCfg : LookupConfig :=
  { Theme := "hicolor", FallbackTheme := "", Extensions := [],
    DefaultSize := 32, DefaultScale := 2 }

/-- The engine built from `sampleCfg` over `sampleFS` at time 0. -/
def sampleIL : IconLookup :=
  (NewIconLookupWithConfig "hicolor" sampleCfg sampleFS sampleEnv 0).fst

/-- The engine state right after construction (both base directories
snapshotted). -/
def sampleSt : ILState :=
  (NewIconLookupWithConfig "hicolor" sampleCfg sampleFS sampleEnv 0).snd

/-- An engine configuration with all defaults (used by the cache scenarios,
where only `cacheValidCheckInterval` matters). -/
def ilPlain : IconLookup :=
  ⟨"hicolor", "", ["png", "svg", "xpm"], fiveSeconds, 48, 1⟩

/-- A filesystem on which every stat fails (the base directory has been
removed). -/
def fsGone : FS := ⟨fun _ => none, [], fun _ => none⟩

/-- State holding a five-second-old snapshot of `/base` that still lists
`/base/hicolor/48x48/app.png`. -/
def stOldSnapshot : ILState :=
  ⟨[], [("/base", ⟨["/base/hicolor/48x48/app.png"], 7, 0⟩)]⟩

/-- A minimal cached theme record. -/
def tiSmall : ThemeInfo := ⟨"T", [], [], [], []⟩

/-- Filesystem where `/base` exists with a changed modification time. -/
def fsTouched : FS :=
  ⟨fun p => if p = "/base" then some 2 else none, ["/base/x.png"], fun _ => none⟩

/-- State with a cached theme record and a stale `/base` snapshot whose
recorded mtime (1) differs from the directory's current mtime (2). -/
def stThemeCached : ILState :=
  ⟨[("T", tiSmall)], [("/base", ⟨[], 1, 0⟩)]⟩

/-- The main section of a descriptor for a theme `X` inheriting `Adwaita`
(not `hicolor`). -/
def secAdwaita : IniSection :=
  ⟨"Icon Theme", [⟨"Name", "X Theme"⟩, ⟨"Directories", "d16"⟩,
                  ⟨"Inherits", "Adwaita"⟩]⟩

/-- A descriptor for a theme `X` inheriting `Adwaita` (not `hicolor`). -/
def iniInheritsAdwaita : IniFile :=
  ⟨[secAdwaita, ⟨"d16", [⟨"Size", "16"⟩]⟩]⟩

/-- Filesystem exposing `iniInheritsAdwaita` at path `idx`. -/
def fsInheritsAdwaita : FS :=
  ⟨fun _ => none, [], fun p => if p = "idx" then some iniInheritsAdwaita else none⟩

/-- The record parsed from `iniInheritsAdwaita` (projection of the parse
result, so that `readThemeIndex … = some tiAdwaita` holds by computation). -/
def tiAdwaita : ThemeInfo :=
  (readThemeIndex fsInheritsAdwaita "X" "idx").getD ⟨"", [], [], [], []⟩

/-- A `ThemeInfo` with a single subdirectory rule, used to state the pure
sizing claims. -/
def singleRuleTheme (rule : SubDirIconInfo) : ThemeInfo :=
  ⟨"T", ["d"], [], [], [("d", rule)]⟩

/-- The state after the theme-chain search of
`FindBestIcon(["a","b"], 48, 1)` on the sample world (projection, so the
equality hypotheses of the claim theorems hold by computation). -/
def sampleStAfterBest : ILState :=
  (findBestIconList sampleIL sampleFS sampleEnv 0 ["a", "b"] 48 1 3
    [sampleIL.theme] sampleSt).snd

/-- The themed result for candidate `b` in the sample world. -/
def iconB : Icon := ⟨"b", "/data/icons/hicolor/48x48/b.png", 48, 48, 48, 1⟩

/-- A path is well-formed for an extension list when it ends in `.` followed
by one of the extensions. -/
def GoodPath (exts : List String) (path : String) : Prop :=
  ∃ ext ∈ exts, ∃ p, path = p ++ ("." ++ ext)

/-- The state after `FindIcon("app", 48, 1)` on the sample world
(projection, so equality hypotheses hold by computation). -/
def sampleStAfterFind : ILState :=
  (FindIcon sampleIL sampleFS sampleEnv 0 3 "app" 48 1 sampleSt).snd

/-- The 48×48 result for `app` in the sample world. -/
def iconApp48 : Icon := ⟨"app", "/data/icons/hicolor/48x48/app.png", 48, 48, 48, 1⟩

/-! Theorems about the claims. -/

/-- C8: for a `Threshold` rule with `size = 32`, `threshold = 2` and rule
scale equal to the requested scale, `directoryMatchesSize` accepts exactly
the requested sizes 30–34 (so 30, 31, 32, 33, 34, for any `MinSize`,
`MaxSize` and any common scale) and rejects everything else, in particular
29 and 35. -/
theorem C8_threshold_match_band (s reqSize minS maxS : Int) :
    directoryMatchesSize (singleRuleTheme ⟨32, s, "Threshold", maxS, minS, 2⟩)
      "d" reqSize s = decide (30 ≤ reqSize ∧ reqSize ≤ 34) := by
  simp [directoryMatchesSize, singleRuleTheme, ThemeInfo.getDir, assocFind,
    SubDirIconInfo.zero]

/-- C5 counterexample: for the `Threshold` rule with `size = 32`,
`threshold = 2`, `scale = 1`, `MinSize = 16`, `MaxSize = 32`, the requested
size 29 at scale 1 lies below the threshold-widened range `[30, 34]` by 1,
yet `directorySizeDistance` returns `16 − 29 = −13`: neither the shortfall
relative to the threshold-widened range nor a non-negative value. -/
theorem C5_counterexample :
    directorySizeDistance (singleRuleTheme ⟨32, 1, "Threshold", 32, 16, 2⟩)
        "d" 29 1 = -13 ∧
      ((32 - 2 : Int) * 1 - 29 * 1 = 1 ∧ (-13 : Int) < 0) := by
  constructor
  · rfl
  · decide

/-- C5 amended: for a `Threshold` rule the inside test uses the
threshold-widened range `[(size − threshold)·scale, (size + threshold)·scale]`
(inside gives 0), but the out-of-range values are computed from
`MinSize`/`MaxSize` exactly as in the `Scalable` case:
`MinSize·scale − req` below the range and `req − MaxSize·scale` above it,
which can be negative when `MinSize`/`MaxSize` lie inside the threshold
band. -/
theorem C5_threshold_distance (size scale minS maxS thr reqS reqSc : Int) :
    directorySizeDistance (singleRuleTheme ⟨size, scale, "Threshold", maxS, minS, thr⟩)
      "d" reqS reqSc =
      if reqS * reqSc < (size - thr) * scale then minS * scale - reqS * reqSc
      else if reqS * reqSc > (size + thr) * scale then reqS * reqSc - maxS * scale
      else 0 := by
  simp [directorySizeDistance, singleRuleTheme, ThemeInfo.getDir, assocFind,
    SubDirIconInfo.zero]

/-- C3 counterexample: with `HOME=/home/u` and `XDG_DATA_DIRS` empty/unset,
the empty data-directories entry is not skipped: `strings.Split("", ":")`
yields one empty entry, and `path.Join("", "icons")` contributes the
relative directory `"icons"`, so the result is not the two-element list the
claim requires. -/
theorem C3_counterexample :
    GetBaseDirs ⟨"/home/u", ""⟩ = ["/home/u/.icons", "icons", "/usr/share/pixmaps"] ∧
      GetBaseDirs ⟨"/home/u", ""⟩ ≠ ["/home/u/.icons", "/usr/share/pixmaps"] := by
  constructor
  · rfl
  · decide

/-- C3 amended: `GetBaseDirs` returns, in order, `$HOME/.icons` (skipped
only when `HOME` is empty), then `path.Join(entry, "icons")` for EVERY
colon-separated entry of `XDG_DATA_DIRS` — an empty or unset variable
yields the single empty entry and an empty entry contributes the relative
path `"icons"`, none are skipped — then `/usr/share/pixmaps`. -/
theorem C3_base_dirs_order (env : Env) :
    GetBaseDirs env =
      (if env.home = "" then [] else [pathJoin [env.home, ".icons"]]) ++
        (goSplit ':' env.xdgDataDirs).map (fun d => pathJoin [d, "icons"]) ++
        ["/usr/share/pixmaps"] := by
  by_cases h : env.home = "" <;> simp [GetBaseDirs, h]

/-- C1: when a stale-triggered re-validation finds the base directory gone
(stat fails), the snapshot IS dropped from the table, but the triggering
query itself still answers membership from the dropped snapshot: here it
returns `true` for a path of the old snapshot, where the claim (and spec)
require `false`. -/
theorem C1_answers_from_dropped_snapshot :
    fileExists ilPlain fsGone fiveSeconds stOldSnapshot
        "/base" "/base/hicolor/48x48/app.png" = (true, ⟨[], []⟩) ∧
      assocFind stOldSnapshot.dirCache "/base" ≠ none := by
  constructor
  · rfl
  · decide

/-- `shouldRefreshCache` never touches the theme table. -/
theorem shouldRefreshCache_themeCache (il : IconLookup) (fs : FS) (now : Int)
    (st : ILState) (baseDir : String) (ce : Option BaseDirIconCache) :
    ((shouldRefreshCache il fs now st baseDir ce).fst).themeInfoCache =
      st.themeInfoCache := by
  unfold shouldRefreshCache
  cases ce with
  | none => rfl
  | some e =>
    simp only
    split
    · rfl
    · cases fs.stat baseDir <;> rfl

/-- `cacheBaseDirectory` either fails leaving the state untouched or clears
the theme table. -/
theorem cacheBaseDirectory_themeCache (fs : FS) (now : Int) (st : ILState)
    (dirPath : String) :
    ((cacheBaseDirectory fs now st dirPath).fst).themeInfoCache =
        st.themeInfoCache ∨
      ((cacheBaseDirectory fs now st dirPath).fst).themeInfoCache = [] := by
  unfold cacheBaseDirectory
  cases fs.stat dirPath with
  | none => exact Or.inl rfl
  | some mtime => exact Or.inr rfl

/-- C4 counterexample: a `fileExists` call whose stale check sees a changed
base-directory modification time re-walks the directory and thereby clears
the whole theme table: the previously cached record for theme `T` is gone
afterwards, contradicting the claim that no directory-cache refresh removes
entries of the theme table. -/
theorem C4_counterexample :
    assocFind stThemeCached.themeInfoCache "T" = some tiSmall ∧
      (fileExists ilPlain fsTouched fiveSeconds stThemeCached
          "/base" "/base/x.png").snd.themeInfoCache = [] ∧
      (fileExists ilPlain fsTouched fiveSeconds stThemeCached
          "/base" "/base/x.png").fst = true := by
  refine ⟨rfl, rfl, rfl⟩

/-- C4 amended: a theme record, once cached, is returned unchanged by every
later `getThemeInfo` call for that name (no re-parse, no replacement) for as
long as it stays in the table; but the table is NOT immutable for the
process lifetime: every successful base-directory (re-)scan —
`cacheBaseDirectory`, triggered at construction or by a `fileExists` whose
stale re-validation sees a changed modification time — clears the whole
theme table, so a `fileExists` call either preserves the theme table or
empties it. -/
theorem C4_theme_cache_lifecycle :
    (∀ (il : IconLookup) (fs : FS) (env : Env) (st : ILState)
        (theme : String) (ti : ThemeInfo),
        assocFind st.themeInfoCache theme = some ti →
        getThemeInfo il fs env st theme = (some ti, st)) ∧
      (∀ (il : IconLookup) (fs : FS) (now : Int) (st : ILState)
          (baseDir iconPath : String),
          (fileExists il fs now st baseDir iconPath).snd.themeInfoCache =
              st.themeInfoCache ∨
            (fileExists il fs now st baseDir iconPath).snd.themeInfoCache = []) := by
  constructor
  · intro il fs env st theme ti h
    unfold getThemeInfo
    rw [h]
  · intro il fs now st baseDir iconPath
    unfold fileExists
    simp only
    split
    · have h1 := shouldRefreshCache_themeCache il fs now st baseDir
        (assocFind st.dirCache baseDir)
      split
      · have h2 := cacheBaseDirectory_themeCache fs now
          (shouldRefreshCache il fs now st baseDir (assocFind st.dirCache baseDir)).fst
          baseDir
        rcases h2 with h2 | h2
        · exact Or.inl (by rw [h2, h1])
        · exact Or.inr h2
      · split
        · split
          · exact Or.inl h1
          · exact Or.inl h1
        · exact Or.inl h1
    · exact Or.inl rfl

/-- C4 witness: the amended claim at a concrete input — the cached record
for `T` is returned unchanged, and the concrete `fileExists` call preserves
or empties the theme table. -/
theorem C4_theme_cache_lifecycle_witness :
    getThemeInfo ilPlain fsTouched sampleEnv stThemeCached "T" =
        (some tiSmall, stThemeCached) ∧
      ((fileExists ilPlain fsTouched fiveSeconds stThemeCached
            "/base" "/base/x.png").snd.themeInfoCache =
          stThemeCached.themeInfoCache ∨
        (fileExists ilPlain fsTouched fiveSeconds stThemeCached
            "/base" "/base/x.png").snd.themeInfoCache = []) :=
  ⟨C4_theme_cache_lifecycle.1 ilPlain fsTouched sampleEnv stThemeCached "T" tiSmall rfl,
   C4_theme_cache_lifecycle.2 ilPlain fsTouched fiveSeconds stThemeCached
     "/base" "/base/x.png"⟩

/-- C7: whenever `readThemeIndex` succeeds, the resulting `Inherits` list is
the descriptor's own list when the theme is the sentinel `hicolor`; for any
other theme it contains `hicolor`: left as listed when the descriptor
already lists it, appended at the end otherwise. -/
theorem C7_hicolor_appended (fs : FS) (theme indexPath : String)
    (index : IniFile) (sec : IniSection) (ti : ThemeInfo)
    (hIdx : fs.index indexPath = some index)
    (hSec : index.getSection "Icon Theme" = some sec)
    (hOk : readThemeIndex fs theme indexPath = some ti) :
    (theme = "hicolor" → ti.Inherits = sectionInherits sec) ∧
      (theme ≠ "hicolor" →
        ti.Inherits.contains "hicolor" = true ∧
          ((sectionInherits sec).contains "hicolor" = true →
            ti.Inherits = sectionInherits sec) ∧
          ((sectionInherits sec).contains "hicolor" = false →
            ti.Inherits = sectionInherits sec ++ ["hicolor"])) := by
  unfold readThemeIndex at hOk
  rw [hIdx] at hOk
  simp only [hSec] at hOk
  cases hName : sec.getKey "Name" with
  | none => simp only [hName] at hOk; exact Option.noConfusion hOk
  | some nameVal =>
  simp only [hName] at hOk
  cases hDirs : sec.getKey "Directories" with
  | none => simp only [hDirs] at hOk; exact Option.noConfusion hOk
  | some dirsVal =>
  simp only [hDirs] at hOk
  cases hSub : readSubDirs index
      (iniStrings dirsVal ++ sectionScaledDirs sec) [] with
  | none => simp only [hSub] at hOk; exact Option.noConfusion hOk
  | some dmap =>
  simp only [hSub, Option.some.injEq] at hOk
  have hInh : ti.Inherits =
      (if theme ≠ "hicolor" ∧ ¬ ((sectionInherits sec).contains "hicolor") then
        sectionInherits sec ++ ["hicolor"]
      else sectionInherits sec) := by
    rw [← hOk]
  constructor
  · intro hTheme
    rw [hInh, if_neg]
    intro hcond
    exact hcond.1 hTheme
  · intro hTheme
    by_cases hC : (sectionInherits sec).contains "hicolor" = true
    · refine ⟨?_, fun _ => ?_, fun hFalse => ?_⟩
      · rw [hInh, if_neg (fun hcond => hcond.2 hC)]
        exact hC
      · rw [hInh, if_neg (fun hcond => hcond.2 hC)]
      · rw [hC] at hFalse
        exact Bool.noConfusion hFalse
    · refine ⟨?_, fun hTrue => ?_, fun _ => ?_⟩
      · rw [hInh, if_pos ⟨hTheme, hC⟩]
        have hm : "hicolor" ∈ sectionInherits sec ++ ["hicolor"] :=
          List.mem_append_right _ (List.mem_singleton.mpr rfl)
        simp [List.contains, List.elem_eq_mem, hm]
      · exact absurd hTrue hC
      · rw [hInh, if_pos ⟨hTheme, hC⟩]

/-- The theme-chain search with an empty candidate list fails for every
fuel, theme work list and state. -/
theorem findBestIconList_nil (il : IconLookup) (fs : FS) (env : Env)
    (now size scale : Int) :
    ∀ (fuel : Nat) (themes : List String) (st : ILState),
    (findBestIconList il fs env now [] size scale fuel themes st).fst = none := by
  intro fuel
  induction fuel with
  | zero => intro themes st; rfl
  | succ n ih =>
    intro themes st
    cases themes with
    | nil => rfl
    | cons theme rest =>
      simp only [findBestIconList]
      cases hg : getThemeInfo il fs env st theme with
      | mk o st1 =>
        cases o with
        | none => exact ih rest st1
        | some ti =>
          simp only [lookupIconCands]
          cases hr : findBestIconList il fs env now [] size scale n ti.Inherits st1 with
          | mk o2 st3 =>
            have h2 := ih ti.Inherits st1
            rw [hr] at h2
            cases o2 with
            | some icon => exact Option.noConfusion h2
            | none => exact ih rest st3

/-- C9: `FindBestIcon` with an empty candidate list reports not-found for
every engine configuration, filesystem, environment, time, fuel, requested
size/scale and cache state: the theme chain, the per-candidate fallback tier
and the fallback-theme chain all fail on zero candidates. -/
theorem C9_empty_candidates_not_found (il : IconLookup) (fs : FS) (env : Env)
    (now : Int) (fuel : Nat) (size scale : Int) (st : ILState) :
    (FindBestIcon il fs env now fuel [] size scale st).fst = none := by
  unfold FindBestIcon
  cases hr1 : findBestIconList il fs env now [] size scale fuel [il.theme] st with
  | mk o1 st1 =>
    have h1 := findBestIconList_nil il fs env now size scale fuel [il.theme] st
    rw [hr1] at h1
    cases o1 with
    | some icon => exact Option.noConfusion h1
    | none =>
      simp only [fallbackCands]
      by_cases hf : il.fallbackTheme ≠ ""
      · simp only [if_pos hf]
        cases hr2 : findBestIconList il fs env now [] size scale fuel
            [il.fallbackTheme] st1 with
        | mk o2 st2 =>
          have h2 := findBestIconList_nil il fs env now size scale fuel
            [il.fallbackTheme] st1
          rw [hr2] at h2
          cases o2 with
          | some icon => exact Option.noConfusion h2
          | none => rfl
      · simp only [if_neg hf]

/-- C6: (1) whenever the theme-chain search (which tries every candidate in
the current theme, in listed order, before recursing into any parent)
succeeds, `FindBestIcon` returns exactly that result — so the whole
inheritance chain is exhausted for all candidates before the global
(theme-less) fallback tier is consulted; and (2) in the sample world where
candidate `b` has an exact themed match and candidate `a` exists only in the
legacy pixmap directory, `FindBestIcon(["a","b"], 48, 1)` returns the themed
`b` icon. -/
theorem C6_candidates_before_fallback :
    (∀ (il : IconLookup) (fs : FS) (env : Env) (now : Int) (fuel : Nat)
        (iconList : List String) (size scale : Int) (st : ILState)
        (icon : Icon) (st' : ILState),
        findBestIconList il fs env now iconList size scale fuel [il.theme] st =
          (some icon, st') →
        FindBestIcon il fs env now fuel iconList size scale st = (some icon, st')) ∧
      (FindBestIcon sampleIL sampleFS sampleEnv 0 3 ["a", "b"] 48 1 sampleSt).fst =
        some iconB := by
  constructor
  · intro il fs env now fuel iconList size scale st icon st' h
    unfold FindBestIcon
    rw [h]
  · rfl

/-- C6 witness: the general part of the claim applied to the sample world,
with its hypothesis discharged by computation. -/
theorem C6_candidates_before_fallback_witness :
    FindBestIcon sampleIL sampleFS sampleEnv 0 3 ["a", "b"] 48 1 sampleSt =
      (some iconB, sampleStAfterBest) :=
  C6_candidates_before_fallback.1 sampleIL sampleFS sampleEnv 0 3 ["a", "b"]
    48 1 sampleSt iconB sampleStAfterBest rfl

/-- C2: the claim fails against the code and the code contradicts its own
documentation: `LookupConfig.DefaultSize`/`DefaultScale` are documented as
the defaults "to be used in [Lookup]" and are stored by the constructor
(here 32 and 2), but `Lookup` calls `FindIcon(name, 48, 1)` with hard-coded
literals, so on the sample world `Lookup` returns the 48×48 icon while
`FindIcon` at the configured defaults (32, 2) returns a different icon. -/
theorem C2_lookup_ignores_configured_defaults :
    (∀ (il : IconLookup) (fs : FS) (env : Env) (now : Int) (fuel : Nat)
        (name : String) (st : ILState),
        Lookup il fs env now fuel name st = FindIcon il fs env now fuel name 48 1 st) ∧
      sampleIL.defaultSize = 32 ∧
      sampleIL.defaultScale = 2 ∧
      (Lookup sampleIL sampleFS sampleEnv 0 3 "app" sampleSt).fst =
        some ⟨"app", "/data/icons/hicolor/48x48/app.png", 48, 48, 48, 1⟩ ∧
      (FindIcon sampleIL sampleFS sampleEnv 0 3 "app"
          sampleIL.defaultSize sampleIL.defaultScale sampleSt).fst =
        some ⟨"app", "/data/icons/hicolor/32x32@2/app.png", 32, 32, 32, 2⟩ ∧
      (Lookup sampleIL sampleFS sampleEnv 0 3 "app" sampleSt).fst ≠
        (FindIcon sampleIL sampleFS sampleEnv 0 3 "app"
          sampleIL.defaultSize sampleIL.defaultScale sampleSt).fst := by
  refine ⟨fun _ _ _ _ _ _ _ => rfl, rfl, rfl, rfl, rfl, ?_⟩
  decide

/-- C7 witness: parsing the descriptor of theme `X` (which inherits only
`Adwaita`) appends `hicolor` at the end of the inheritance list. -/
theorem C7_hicolor_appended_witness :
    (("X" : String) = "hicolor" → tiAdwaita.Inherits = sectionInherits secAdwaita) ∧
      (("X" : String) ≠ "hicolor" →
        tiAdwaita.Inherits.contains "hicolor" = true ∧
          ((sectionInherits secAdwaita).contains "hicolor" = true →
            tiAdwaita.Inherits = sectionInherits secAdwaita) ∧
          ((sectionInherits secAdwaita).contains "hicolor" = false →
            tiAdwaita.Inherits = sectionInherits secAdwaita ++ ["hicolor"])) :=
  C7_hicolor_appended fsInheritsAdwaita "X" "idx" iniInheritsAdwaita
    secAdwaita tiAdwaita rfl rfl rfl

/-- `joinNonEmpty` of a list ending in `x` ends in `x`. -/
theorem joinNonEmpty_suffix (l : List String) (x : String) :
    ∃ p, joinNonEmpty (l ++ [x]) = p ++ x := by
  induction l with
  | nil => exact ⟨"", (String.empty_append x).symm⟩
  | cons y ys ih =>
    cases ys with
    | nil => exact ⟨y ++ "/", rfl⟩
    | cons z zs =>
      obtain ⟨p, hp⟩ := ih
      refine ⟨y ++ "/" ++ p, ?_⟩
      show y ++ "/" ++ joinNonEmpty ((z :: zs) ++ [x]) = y ++ "/" ++ p ++ x
      rw [hp]
      exact (String.append_assoc (y ++ "/") p x).symm

/-- `pathJoin` of a list ending in a non-empty `x` ends in `x`. -/
theorem pathJoin_suffix (l : List String) (x : String) (hx : x ≠ "") :
    ∃ p, pathJoin (l ++ [x]) = p ++ x := by
  unfold pathJoin
  rw [List.filter_append]
  have hxf : List.filter (fun e => decide (e ≠ "")) [x] = [x] := by
    simp [hx]
  rw [hxf]
  exact joinNonEmpty_suffix _ x

/-- A name of the form `a ++ "." ++ b` is never empty. -/
theorem dotName_ne_empty (a b : String) : a ++ "." ++ b ≠ "" := by
  intro h
  have hd := congrArg String.data h
  rw [String.data_append, String.data_append] at hd
  have hm : ('.' : Char) ∈ (a.data ++ ".".data) ++ b.data :=
    List.mem_append_left _ (List.mem_append_right _ (by decide))
  rw [hd] at hm
  exact absurd hm (by decide)

/-- Every icon path the engine builds — `pathJoin` of some prefix elements
followed by `name ++ "." ++ ext` — is well-formed for any extension list
containing `ext`. -/
theorem mkIconPath_good (exts : List String) (ext : String) (hext : ext ∈ exts)
    (elems : List String) (nm : String) :
    GoodPath exts (pathJoin (elems ++ [nm ++ "." ++ ext])) := by
  obtain ⟨p, hp⟩ := pathJoin_suffix elems (nm ++ "." ++ ext) (dotName_ne_empty nm ext)
  refine ⟨ext, hext, p ++ nm, ?_⟩
  rw [hp, String.append_assoc p nm ("." ++ ext), ← String.append_assoc nm "." ext]

/-- The exact pass's extension loop only returns paths of the built form. -/
theorem pass1Exts_good (il : IconLookup) (fs : FS) (now : Int) (ti : ThemeInfo)
    (theme iconName : String) (size scale : Int) (subdir directory : String) :
    ∀ (exts0 : List String) (st : ILState) (path : String) (st' : ILState),
    (∀ e ∈ exts0, e ∈ il.extensions) →
    pass1Exts il fs now ti theme iconName size scale subdir directory exts0 st =
      (some path, st') →
    GoodPath il.extensions path := by
  intro exts0
  induction exts0 with
  | nil => intro st path st' _ h; exact Option.noConfusion (congrArg Prod.fst h)
  | cons e rest ih =>
    intro st path st' hsub h
    unfold pass1Exts at h
    split at h
    · cases hfe : fileExists il fs now st directory
          (pathJoin [directory, theme, subdir, iconName ++ "." ++ e]) with
      | mk ok st1 =>
        rw [hfe] at h
        cases ok with
        | true =>
          have hpe : pathJoin [directory, theme, subdir, iconName ++ "." ++ e] = path :=
            Option.some.inj (congrArg Prod.fst h)
          rw [← hpe]
          have hsplit : [directory, theme, subdir, iconName ++ "." ++ e] =
              [directory, theme, subdir] ++ [iconName ++ "." ++ e] := rfl
          rw [hsplit]
          exact mkIconPath_good il.extensions e (hsub e (List.mem_cons_self e rest))
            [directory, theme, subdir] iconName
        | false =>
          exact ih st1 path st' (fun x hx => hsub x (List.mem_cons_of_mem e hx)) h
    · exact ih st path st' (fun x hx => hsub x (List.mem_cons_of_mem e hx)) h

/-- The exact pass's base-directory loop only returns well-formed paths. -/
theorem pass1Dirs_good (il : IconLookup) (fs : FS) (now : Int) (ti : ThemeInfo)
    (theme iconName : String) (size scale : Int) (subdir : String) :
    ∀ (dirs : List String) (st : ILState) (path : String) (st' : ILState),
    pass1Dirs il fs now ti theme iconName size scale subdir dirs st =
      (some path, st') →
    GoodPath il.extensions path := by
  intro dirs
  induction dirs with
  | nil => intro st path st' h; exact Option.noConfusion (congrArg Prod.fst h)
  | cons d rest ih =>
    intro st path st' h
    unfold pass1Dirs at h
    cases he : pass1Exts il fs now ti theme iconName size scale subdir d
        il.extensions st with
    | mk o st1 =>
      rw [he] at h
      cases o with
      | some p =>
        have hpe : p = path := Option.some.inj (congrArg Prod.fst h)
        exact hpe ▸ pass1Exts_good il fs now ti theme iconName size scale subdir d
          il.extensions st p st1 (fun _ hx => hx) he
      | none => exact ih st1 path st' h

/-- The exact pass only returns well-formed paths. -/
theorem pass1Subdirs_good (il : IconLookup) (fs : FS) (env : Env) (now : Int)
    (ti : ThemeInfo) (theme iconName : String) (size scale : Int) :
    ∀ (subdirs : List String) (st : ILState) (path subdir : String) (st' : ILState),
    pass1Subdirs il fs env now ti theme iconName size scale subdirs st =
      (some (path, subdir), st') →
    GoodPath il.extensions path := by
  intro subdirs
  induction subdirs with
  | nil => intro st path subdir st' h; exact Option.noConfusion (congrArg Prod.fst h)
  | cons sd rest ih =>
    intro st path subdir st' h
    unfold pass1Subdirs at h
    cases hd : pass1Dirs il fs now ti theme iconName size scale sd
        (GetBaseDirs env) st with
    | mk o st1 =>
      rw [hd] at h
      cases o with
      | some p =>
        have hpe : (p, sd) = (path, subdir) := Option.some.inj (congrArg Prod.fst h)
        have hp : p = path := (Prod.mk.injEq _ _ _ _ ▸ hpe).1
        exact hp ▸ pass1Dirs_good il fs now ti theme iconName size scale sd
          (GetBaseDirs env) st p st1 hd
      | none => exact ih st1 path subdir st' h

/-- The closest-size pass's extension loop preserves the accumulator
invariant: the tracked closest filename is empty or well-formed. -/
theorem pass2Exts_good (il : IconLookup) (fs : FS) (now : Int) (ti : ThemeInfo)
    (theme iconName : String) (size scale : Int) (subdir directory : String) :
    ∀ (exts0 : List String) (acc : Pass2Acc) (st : ILState),
    (∀ e ∈ exts0, e ∈ il.extensions) →
    (acc.2.1 = "" ∨ GoodPath il.extensions acc.2.1) →
    ((pass2Exts il fs now ti theme iconName size scale subdir directory
        exts0 acc st).fst.2.1 = "" ∨
      GoodPath il.extensions (pass2Exts il fs now ti theme iconName size scale
        subdir directory exts0 acc st).fst.2.1) := by
  intro exts0
  induction exts0 with
  | nil => intro acc st _ hacc; exact hacc
  | cons e rest ih =>
    intro acc st hsub hacc
    unfold pass2Exts
    cases hfe : fileExists il fs now st directory
        (pathJoin [directory, theme, subdir, iconName ++ "." ++ e]) with
    | mk ok st1 =>
      apply ih _ st1 (fun x hx => hsub x (List.mem_cons_of_mem e hx))
      by_cases hc : (ok = true ∧ directorySizeDistance ti subdir size scale < acc.1)
      · rw [if_pos hc]
        refine Or.inr ?_
        have hsplit : [directory, theme, subdir, iconName ++ "." ++ e] =
            [directory, theme, subdir] ++ [iconName ++ "." ++ e] := rfl
        rw [hsplit]
        exact mkIconPath_good il.extensions e (hsub e (List.mem_cons_self e rest))
          [directory, theme, subdir] iconName
      · rw [if_neg hc]
        exact hacc

/-- The closest-size pass's base-directory loop preserves the accumulator
invariant. -/
theorem pass2Dirs_good (il : IconLookup) (fs : FS) (now : Int) (ti : ThemeInfo)
    (theme iconName : String) (size scale : Int) (subdir : String) :
    ∀ (dirs : List String) (acc : Pass2Acc) (st : ILState),
    (acc.2.1 = "" ∨ GoodPath il.extensions acc.2.1) →
    ((pass2Dirs il fs now ti theme iconName size scale subdir
        dirs acc st).fst.2.1 = "" ∨
      GoodPath il.extensions (pass2Dirs il fs now ti theme iconName size scale
        subdir dirs acc st).fst.2.1) := by
  intro dirs
  induction dirs with
  | nil => intro acc st hacc; exact hacc
  | cons d rest ih =>
    intro acc st hacc
    unfold pass2Dirs
    cases he : pass2Exts il fs now ti theme iconName size scale subdir d
        il.extensions acc st with
    | mk acc1 st1 =>
      apply ih acc1 st1
      have := pass2Exts_good il fs now ti theme iconName size scale subdir d
        il.extensions acc st (fun _ hx => hx) hacc
      rw [he] at this
      exact this

/-- The closest-size pass preserves the accumulator invariant. -/
theorem pass2Subdirs_good (il : IconLookup) (fs : FS) (env : Env) (now : Int)
    (ti : ThemeInfo) (theme iconName : String) (size scale : Int) :
    ∀ (subdirs : List String) (acc : Pass2Acc) (st : ILState),
    (acc.2.1 = "" ∨ GoodPath il.extensions acc.2.1) →
    ((pass2Subdirs il fs env now ti theme iconName size scale
        subdirs acc st).fst.2.1 = "" ∨
      GoodPath il.extensions (pass2Subdirs il fs env now ti theme iconName
        size scale subdirs acc st).fst.2.1) := by
  intro subdirs
  induction subdirs with
  | nil => intro acc st hacc; exact hacc
  | cons sd rest ih =>
    intro acc st hacc
    unfold pass2Subdirs
    cases hd : pass2Dirs il fs now ti theme iconName size scale sd
        (GetBaseDirs env) acc st with
    | mk acc1 st1 =>
      apply ih acc1 st1
      have := pass2Dirs_good il fs now ti theme iconName size scale sd
        (GetBaseDirs env) acc st hacc
      rw [hd] at this
      exact this

/-- Every icon `lookupIcon` returns carries the requested name and a path
ending in a dot followed by one of the configured extensions. -/
theorem lookupIcon_good (il : IconLookup) (fs : FS) (env : Env) (now : Int)
    (iconName : String) (size scale : Int) (theme : String) (st : ILState)
    (icon : Icon) (st' : ILState)
    (h : lookupIcon il fs env now iconName size scale theme st = (some icon, st')) :
    icon.Name = iconName ∧ GoodPath il.extensions icon.Path := by
  unfold lookupIcon at h
  cases hg : getThemeInfo il fs env st theme with
  | mk o st1 =>
    rw [hg] at h
    cases o with
    | none => exact Option.noConfusion (congrArg Prod.fst h)
    | some ti =>
      dsimp only at h
      cases hp1 : pass1Subdirs il fs env now ti theme iconName size scale
          (ti.Directories ++ ti.ScaledDirectories) st1 with
      | mk o1 st2 =>
        rw [hp1] at h
        cases o1 with
        | some ps =>
          obtain ⟨p, sd⟩ := ps
          have hi : mkThemedIcon ti iconName p sd = icon :=
            Option.some.inj (congrArg Prod.fst h)
          constructor
          · rw [← hi]; rfl
          · have hg1 := pass1Subdirs_good il fs env now ti theme iconName size
              scale (ti.Directories ++ ti.ScaledDirectories) st1 p sd st2 hp1
            rw [← hi]
            exact hg1
        | none =>
          dsimp only at h
          cases hp2 : pass2Subdirs il fs env now ti theme iconName size scale
              (ti.Directories ++ ti.ScaledDirectories) (goMaxInt, "", "") st2 with
          | mk acc st3 =>
            rw [hp2] at h
            dsimp only at h
            have hinv := pass2Subdirs_good il fs env now ti theme iconName size
              scale (ti.Directories ++ ti.ScaledDirectories) (goMaxInt, "", "")
              st2 (Or.inl rfl)
            rw [hp2] at hinv
            by_cases hne : acc.2.1 ≠ ""
            · rw [if_pos hne] at h
              have hi : mkThemedIcon ti iconName acc.2.1 acc.2.2 = icon :=
                Option.some.inj (congrArg Prod.fst h)
              constructor
              · rw [← hi]; rfl
              · rcases hinv with hinv | hinv
                · exact absurd hinv hne
                · rw [← hi]; exact hinv
            · rw [if_neg hne] at h
              exact Option.noConfusion (congrArg Prod.fst h)

/-- The global-fallback extension loop only returns well-formed icons. -/
theorem fallbackExts_good (il : IconLookup) (fs : FS) (now : Int)
    (iconName directory : String) :
    ∀ (exts0 : List String) (st : ILState) (icon : Icon) (st' : ILState),
    (∀ e ∈ exts0, e ∈ il.extensions) →
    fallbackExts il fs now iconName directory exts0 st = (some icon, st') →
    icon.Name = iconName ∧ GoodPath il.extensions icon.Path := by
  intro exts0
  induction exts0 with
  | nil => intro st icon st' _ h; exact Option.noConfusion (congrArg Prod.fst h)
  | cons e rest ih =>
    intro st icon st' hsub h
    unfold fallbackExts at h
    cases hfe : fileExists il fs now st directory
        (pathJoin [directory, iconName ++ "." ++ e]) with
    | mk ok st1 =>
      rw [hfe] at h
      cases ok with
      | true =>
        have hi : (⟨iconName, pathJoin [directory, iconName ++ "." ++ e],
            0, 0, 0, 0⟩ : Icon) = icon :=
          Option.some.inj (congrArg Prod.fst h)
        constructor
        · rw [← hi]
        · rw [← hi]
          show GoodPath il.extensions (pathJoin [directory, iconName ++ "." ++ e])
          have hsplit : [directory, iconName ++ "." ++ e] =
              [directory] ++ [iconName ++ "." ++ e] := rfl
          rw [hsplit]
          exact mkIconPath_good il.extensions e (hsub e (List.mem_cons_self e rest))
            [directory] iconName
      | false =>
        exact ih st1 icon st' (fun x hx => hsub x (List.mem_cons_of_mem e hx)) h

/-- The global-fallback tier only returns well-formed icons. -/
theorem lookupFallbackIcon_good (il : IconLookup) (fs : FS) (env : Env)
    (now : Int) (iconName : String) :
    ∀ (dirs : List String) (st : ILState) (icon : Icon) (st' : ILState),
    fallbackDirs il fs now iconName dirs st = (some icon, st') →
    icon.Name = iconName ∧ GoodPath il.extensions icon.Path := by
  intro dirs
  induction dirs with
  | nil => intro st icon st' h; exact Option.noConfusion (congrArg Prod.fst h)
  | cons d rest ih =>
    intro st icon st' h
    unfold fallbackDirs at h
    cases he : fallbackExts il fs now iconName d il.extensions st with
    | mk o st1 =>
      rw [he] at h
      cases o with
      | some icon1 =>
        have hi : icon1 = icon := Option.some.inj (congrArg Prod.fst h)
        exact hi ▸ fallbackExts_good il fs now iconName d il.extensions st icon1
          st1 (fun _ hx => hx) he
      | none => exact ih st1 icon st' h

/-- The theme-chain search only returns well-formed icons named by the
request. -/
theorem findIconList_good (il : IconLookup) (fs : FS) (env : Env) (now : Int)
    (iconName : String) (size scale : Int) :
    ∀ (fuel : Nat) (themes : List String) (st : ILState) (icon : Icon)
      (st' : ILState),
    findIconList il fs env now iconName size scale fuel themes st =
      (some icon, st') →
    icon.Name = iconName ∧ GoodPath il.extensions icon.Path := by
  intro fuel
  induction fuel with
  | zero => intro themes st icon st' h; exact Option.noConfusion (congrArg Prod.fst h)
  | succ n ih =>
    intro themes st icon st' h
    cases themes with
    | nil => exact Option.noConfusion (congrArg Prod.fst h)
    | cons theme rest =>
      rw [findIconList] at h
      cases hg : getThemeInfo il fs env st theme with
      | mk o st1 =>
        rw [hg] at h
        cases o with
        | none => exact ih rest st1 icon st' h
        | some ti =>
          dsimp only at h
          cases hl : lookupIcon il fs env now iconName size scale theme st1 with
          | mk o1 st2 =>
            rw [hl] at h
            cases o1 with
            | some icon1 =>
              have hi : icon1 = icon := Option.some.inj (congrArg Prod.fst h)
              exact hi ▸ lookupIcon_good il fs env now iconName size scale theme
                st1 icon1 st2 hl
            | none =>
              dsimp only at h
              cases hp : findIconList il fs env now iconName size scale n
                  ti.Inherits st2 with
              | mk o2 st3 =>
                rw [hp] at h
                cases o2 with
                | some icon2 =>
                  have hi : icon2 = icon := Option.some.inj (congrArg Prod.fst h)
                  exact hi ▸ ih ti.Inherits st2 icon2 st3 hp
                | none => exact ih rest st3 icon st' h

/-- The candidate loop only returns well-formed icons named by one of the
candidates. -/
theorem lookupIconCands_good (il : IconLookup) (fs : FS) (env : Env)
    (now size scale : Int) (theme : String) :
    ∀ (cands : List String) (st : ILState) (icon : Icon) (st' : ILState),
    lookupIconCands il fs env now size scale theme cands st = (some icon, st') →
    icon.Name ∈ cands ∧ GoodPath il.extensions icon.Path := by
  intro cands
  induction cands with
  | nil => intro st icon st' h; exact Option.noConfusion (congrArg Prod.fst h)
  | cons c rest ih =>
    intro st icon st' h
    unfold lookupIconCands at h
    cases hl : lookupIcon il fs env now c size scale theme st with
    | mk o st1 =>
      rw [hl] at h
      cases o with
      | some icon1 =>
        have hi : icon1 = icon := Option.some.inj (congrArg Prod.fst h)
        have hg := lookupIcon_good il fs env now c size scale theme st icon1 st1 hl
        exact ⟨by rw [← hi, hg.1]; exact List.mem_cons_self c rest, hi ▸ hg.2⟩
      | none =>
        obtain ⟨h1, h2⟩ := ih st1 icon st' h
        exact ⟨List.mem_cons_of_mem c h1, h2⟩

/-- The multi-candidate theme-chain search only returns well-formed icons
named by one of the candidates. -/
theorem findBestIconList_good (il : IconLookup) (fs : FS) (env : Env)
    (now : Int) (iconList : List String) (size scale : Int) :
    ∀ (fuel : Nat) (themes : List String) (st : ILState) (icon : Icon)
      (st' : ILState),
    findBestIconList il fs env now iconList size scale fuel themes st =
      (some icon, st') →
    icon.Name ∈ iconList ∧ GoodPath il.extensions icon.Path := by
  intro fuel
  induction fuel with
  | zero => intro themes st icon st' h; exact Option.noConfusion (congrArg Prod.fst h)
  | succ n ih =>
    intro themes st icon st' h
    cases themes with
    | nil => exact Option.noConfusion (congrArg Prod.fst h)
    | cons theme rest =>
      rw [findBestIconList] at h
      cases hg : getThemeInfo il fs env st theme with
      | mk o st1 =>
        rw [hg] at h
        cases o with
        | none => exact ih rest st1 icon st' h
        | some ti =>
          dsimp only at h
          cases hl : lookupIconCands il fs env now size scale theme iconList st1 with
          | mk o1 st2 =>
            rw [hl] at h
            cases o1 with
            | some icon1 =>
              have hi : icon1 = icon := Option.some.inj (congrArg Prod.fst h)
              exact hi ▸ lookupIconCands_good il fs env now size scale theme
                iconList st1 icon1 st2 hl
            | none =>
              dsimp only at h
              cases hp : findBestIconList il fs env now iconList size scale n
                  ti.Inherits st2 with
              | mk o2 st3 =>
                rw [hp] at h
                cases o2 with
                | some icon2 =>
                  have hi : icon2 = icon := Option.some.inj (congrArg Prod.fst h)
                  exact hi ▸ ih ti.Inherits st2 icon2 st3 hp
                | none => exact ih rest st3 icon st' h

/-- The per-candidate fallback loop only returns well-formed icons named by
one of the candidates. -/
theorem fallbackCands_good (il : IconLookup) (fs : FS) (env : Env) (now : Int) :
    ∀ (cands : List String) (st : ILState) (icon : Icon) (st' : ILState),
    fallbackCands il fs env now cands st = (some icon, st') →
    icon.Name ∈ cands ∧ GoodPath il.extensions icon.Path := by
  intro cands
  induction cands with
  | nil => intro st icon st' h; exact Option.noConfusion (congrArg Prod.fst h)
  | cons c rest ih =>
    intro st icon st' h
    unfold fallbackCands at h
    cases hl : lookupFallbackIcon il fs env now c st with
    | mk o st1 =>
      rw [hl] at h
      cases o with
      | some icon1 =>
        have hi : icon1 = icon := Option.some.inj (congrArg Prod.fst h)
        have hg := lookupFallbackIcon_good il fs env now c (GetBaseDirs env) st
          icon1 st1 hl
        exact ⟨by rw [← hi, hg.1]; exact List.mem_cons_self c rest, hi ▸ hg.2⟩
      | none =>
        obtain ⟨h1, h2⟩ := ih st1 icon st' h
        exact ⟨List.mem_cons_of_mem c h1, h2⟩

/-- C10: every icon successfully returned by `FindIcon`, `FindBestIcon` or
`Lookup` has a `Path` ending in `.` followed by one of the engine's
configured extensions (`il.extensions`; by default `png`, `svg`, `xpm`) and
a `Name` equal to the requested icon name, respectively equal to one of the
supplied candidate names for `FindBestIcon`. -/
theorem C10_result_wellformed :
    (∀ (il : IconLookup) (fs : FS) (env : Env) (now : Int) (fuel : Nat)
        (iconName : String) (size scale : Int) (st : ILState) (icon : Icon)
        (st' : ILState),
        FindIcon il fs env now fuel iconName size scale st = (some icon, st') →
        icon.Name = iconName ∧ GoodPath il.extensions icon.Path) ∧
      (∀ (il : IconLookup) (fs : FS) (env : Env) (now : Int) (fuel : Nat)
          (iconList : List String) (size scale : Int) (st : ILState)
          (icon : Icon) (st' : ILState),
          FindBestIcon il fs env now fuel iconList size scale st =
            (some icon, st') →
          icon.Name ∈ iconList ∧ GoodPath il.extensions icon.Path) ∧
      (∀ (il : IconLookup) (fs : FS) (env : Env) (now : Int) (fuel : Nat)
          (iconName : String) (st : ILState) (icon : Icon) (st' : ILState),
          Lookup il fs env now fuel iconName st = (some icon, st') →
          icon.Name = iconName ∧ GoodPath il.extensions icon.Path) := by
  have hFind : ∀ (il : IconLookup) (fs : FS) (env : Env) (now : Int)
      (fuel : Nat) (iconName : String) (size scale : Int) (st : ILState)
      (icon : Icon) (st' : ILState),
      FindIcon il fs env now fuel iconName size scale st = (some icon, st') →
      icon.Name = iconName ∧ GoodPath il.extensions icon.Path := by
    intro il fs env now fuel iconName size scale st icon st' h
    unfold FindIcon at h
    cases hr1 : findIconList il fs env now iconName size scale fuel [il.theme] st with
    | mk o1 st1 =>
      rw [hr1] at h
      cases o1 with
      | some icon1 =>
        have hi : icon1 = icon := Option.some.inj (congrArg Prod.fst h)
        exact hi ▸ findIconList_good il fs env now iconName size scale fuel
          [il.theme] st icon1 st1 hr1
      | none =>
        dsimp only at h
        cases hr2 : lookupFallbackIcon il fs env now iconName st1 with
        | mk o2 st2 =>
          rw [hr2] at h
          cases o2 with
          | some icon2 =>
            have hi : icon2 = icon := Option.some.inj (congrArg Prod.fst h)
            exact hi ▸ lookupFallbackIcon_good il fs env now iconName
              (GetBaseDirs env) st1 icon2 st2 hr2
          | none =>
            dsimp only at h
            by_cases hf : il.fallbackTheme ≠ ""
            · rw [if_pos hf] at h
              cases hr3 : findIconList il fs env now iconName size scale fuel
                  [il.fallbackTheme] st2 with
              | mk o3 st3 =>
                rw [hr3] at h
                cases o3 with
                | some icon3 =>
                  have hi : icon3 = icon := Option.some.inj (congrArg Prod.fst h)
                  exact hi ▸ findIconList_good il fs env now iconName size scale
                    fuel [il.fallbackTheme] st2 icon3 st3 hr3
                | none => exact Option.noConfusion (congrArg Prod.fst h)
            · rw [if_neg hf] at h
              exact Option.noConfusion (congrArg Prod.fst h)
  refine ⟨hFind, ?_, ?_⟩
  · intro il fs env now fuel iconList size scale st icon st' h
    unfold FindBestIcon at h
    cases hr1 : findBestIconList il fs env now iconList size scale fuel
        [il.theme] st with
    | mk o1 st1 =>
      rw [hr1] at h
      cases o1 with
      | some icon1 =>
        have hi : icon1 = icon := Option.some.inj (congrArg Prod.fst h)
        exact hi ▸ findBestIconList_good il fs env now iconList size scale fuel
          [il.theme] st icon1 st1 hr1
      | none =>
        dsimp only at h
        cases hr2 : fallbackCands il fs env now iconList st1 with
        | mk o2 st2 =>
          rw [hr2] at h
          cases o2 with
          | some icon2 =>
            have hi : icon2 = icon := Option.some.inj (congrArg Prod.fst h)
            exact hi ▸ fallbackCands_good il fs env now iconList st1 icon2 st2 hr2
          | none =>
            dsimp only at h
            by_cases hf : il.fallbackTheme ≠ ""
            · rw [if_pos hf] at h
              cases hr3 : findBestIconList il fs env now iconList size scale
                  fuel [il.fallbackTheme] st2 with
              | mk o3 st3 =>
                rw [hr3] at h
                cases o3 with
                | some icon3 =>
                  have hi : icon3 = icon := Option.some.inj (congrArg Prod.fst h)
                  exact hi ▸ findBestIconList_good il fs env now iconList size
                    scale fuel [il.fallbackTheme] st2 icon3 st3 hr3
                | none => exact Option.noConfusion (congrArg Prod.fst h)
            · rw [if_neg hf] at h
              exact Option.noConfusion (congrArg Prod.fst h)
  · intro il fs env now fuel iconName st icon st' h
    exact hFind il fs env now fuel iconName 48 1 st icon st' h

/-- C10 witness: the invariant applied to the concrete sample lookup
`FindIcon("app", 48, 1)`, whose hypothesis holds by computation. -/
theorem C10_result_wellformed_witness :
    iconApp48.Name = "app" ∧ GoodPath sampleIL.extensions iconApp48.Path :=
  C10_result_wellformed.1 sampleIL sampleFS sampleEnv 0 3 "app" 48 1 sampleSt
    iconApp48 sampleStAfterFind rfl

end Xdgicons
